import Mathlib

/-!
Verification development for the KCB bank-statement ETL pipeline
(`src/app.py`). The Python program extracts raw page tables from a
statement PDF, normalizes them into a single transaction ledger
(`process_pdf`), derives summary / daily / monthly aggregates
(`create_summary`, `create_daily_totals`, `create_monthly_totals`) and
serializes the result. This file gives a shallow embedding of those
functions and proves (or refutes) the specification claims about them.

Modelling conventions:
* pandas cells are `Option String` (NaN is `none`); parsed money values
  are `Option ℚ` (NaN is `none`).
* pandas float results that can be NaN or ±infinity (growth
  percentages, averages) are modelled by `PVal`; exact decimal input is
  modelled by `ℚ`, eliding IEEE rounding.
* a fatal pandas exception (bad column assignment, unparseable date)
  is `Except.error`; `process_pdf` returning `None` is `.ok none`.
-/

namespace KcbEtl

/-- A pandas floating-point cell that may hold NaN (shown as null) or a
signed infinity, as produced by `pct_change` and division. -/
inductive PVal where
  | nan : PVal
  | pinf : PVal
  | ninf : PVal
  | num : ℚ → PVal
deriving DecidableEq, Repr

/-- IEEE-style division of exact decimals: `a / 0` is NaN when `a = 0`
and a signed infinity otherwise (as in pandas float division). -/
def pdiv (a b : ℚ) : PVal :=
  if b = 0 then (if a = 0 then .nan else if 0 < a then .pinf else .ninf)
  else .num (a / b)

/-- Subtract 1, with NaN/∞ absorbing (IEEE semantics). -/
def PVal.sub1 : PVal → PVal
  | .nan => .nan
  | .pinf => .pinf
  | .ninf => .ninf
  | .num q => .num (q - 1)

/-- Multiply by 100, with NaN/∞ absorbing (IEEE semantics; 100 > 0 so
infinities keep their sign). -/
def PVal.mul100 : PVal → PVal
  | .nan => .nan
  | .pinf => .pinf
  | .ninf => .ninf
  | .num q => .num (q * 100)

/-- One step of pandas `Series.pct_change() * 100`: pandas computes
`cur / prev - 1`, then the program multiplies by 100. -/
def pctStep (prev cur : ℚ) : PVal :=
  ((pdiv cur prev).sub1).mul100

/-- The spec's formula for month-over-month growth:
`(current - previous) / previous * 100`, null for a zero/zero step and
a signed infinity when only the previous value is zero. -/
def pctSpec (prev cur : ℚ) : PVal :=
  if prev = 0 then (if cur = 0 then .nan else if 0 < cur then .pinf else .ninf)
  else .num ((cur - prev) / prev * 100)

/-- A calendar date as parsed from a `DD.MM.YYYY` cell. -/
structure TDate where
  y : Nat
  m : Nat
  d : Nat
deriving DecidableEq, Repr

/-- Order-preserving numeric key for dates with `m ≤ 12`, `d ≤ 31`
(the only dates the pipeline constructs); used for date sorting. -/
def TDate.key (t : TDate) : Nat := t.y * 10000 + t.m * 100 + t.d

/-- Gregorian leap-year test, as in Python's `datetime` validation. -/
def isLeapYear (y : Nat) : Bool :=
  (y % 4 == 0 && y % 100 != 0) || (y % 400 == 0)

/-- Days in a month, as in Python's `datetime` validation. -/
def daysInMonth (y m : Nat) : Nat :=
  if m == 2 then (if isLeapYear y then 29 else 28)
  else if m == 4 || m == 6 || m == 9 || m == 11 then 30
  else 31

/-- The calendar validity check `strptime`/`to_datetime` performs on the
parsed day/month/year fields. -/
def validTDate (t : TDate) : Bool :=
  decide (1 ≤ t.y) && decide (1 ≤ t.m) && decide (t.m ≤ 12) &&
    decide (1 ≤ t.d) && decide (t.d ≤ daysInMonth t.y t.m)

/-- `strftime('%B')`: full English month name. -/
def monthName (m : Nat) : String :=
  if m == 1 then "January" else if m == 2 then "February"
  else if m == 3 then "March" else if m == 4 then "April"
  else if m == 5 then "May" else if m == 6 then "June"
  else if m == 7 then "July" else if m == 8 then "August"
  else if m == 9 then "September" else if m == 10 then "October"
  else if m == 11 then "November" else "December"

/-- Left-pad a numeral with zeros (for `%d`/`%m`/`%Y` formatting). -/
def padZeros (s : String) (n : Nat) : String :=
  ⟨List.replicate (n - s.length) '0'⟩ ++ s

/-- `strftime('%B %Y')`: the month label used as the monthly grouping
key, e.g. `"March 2024"`. -/
def labelOf (t : TDate) : String :=
  monthName t.m ++ " " ++ padZeros (Nat.repr t.y) 4

/-- `strftime('%d.%m.%Y')`: the display format used when the ledger's
date column is re-formatted to strings at serialization time. -/
def fmtDDMMYYYY (t : TDate) : String :=
  padZeros (Nat.repr t.d) 2 ++ "." ++ padZeros (Nat.repr t.m) 2 ++ "."
    ++ padZeros (Nat.repr t.y) 4

/-- `re.search` step for the pre-filter pattern
`\d{2}\.\d{2}\.\d{4}`: does the pattern match at the head of the
character list (arbitrary characters may follow)? -/
def matchDateAt : List Char → Bool
  | d1 :: d2 :: c1 :: m1 :: m2 :: c2 :: y1 :: y2 :: y3 :: y4 :: _ =>
    d1.isDigit && d2.isDigit && (c1 == '.') && m1.isDigit && m2.isDigit &&
      (c2 == '.') && y1.isDigit && y2.isDigit && y3.isDigit && y4.isDigit
  | _ => false

/-- `Series.str.contains(r'\d{2}\.\d{2}\.\d{4}')`: the pattern matches
at some position of the string (a substring search, not a full match). -/
def containsDatePat : List Char → Bool
  | [] => false
  | c :: tl => matchDateAt (c :: tl) || containsDatePat tl

/-- The date pre-filter applied to a transaction-date cell; `na=False`
maps a missing cell to `false`. -/
def cellContainsDate (c : Option String) : Bool :=
  match c with
  | none => false
  | some s => containsDatePat s.toList

/-- The strict `DD.MM.YYYY` shape the spec describes: the whole cell is
exactly two digits, a dot, two digits, a dot and four digits. -/
def strictDateShape (s : String) : Bool :=
  matchDateAt s.toList && (s.toList.length == 10)

/-- The spec's strict-pattern predicate on a transaction-date cell. -/
def strictDateMatch (c : Option String) : Bool :=
  match c with
  | none => false
  | some s => strictDateShape s

/-- Numeric value of the decimal digit at index `i` (cells reaching
this point are all-digit by construction). -/
def digitAt (l : List Char) (i : Nat) : Nat := (l.getD i '0').toNat - 48

/-- The date fields read off a strictly shaped `DD.MM.YYYY` character
list. -/
def dateOfChars (l : List Char) : TDate :=
  ⟨1000 * digitAt l 6 + 100 * digitAt l 7 + 10 * digitAt l 8 + digitAt l 9,
    10 * digitAt l 3 + digitAt l 4,
    10 * digitAt l 0 + digitAt l 1⟩

/-- `pd.to_datetime(..., format='%d.%m.%Y')` on one cell: succeeds on a
strictly shaped, calendar-valid date and raises otherwise.
`strptime` also accepts 1-digit day/month fields, but no such string
can pass the `contains` pre-filter that guards this call in
`process_pdf`, so the strict shape is faithful at every call site;
pandas' Timestamp year bounds are elided. -/
def parseDateExact (s : String) : Option TDate :=
  if strictDateShape s then
    if validTDate (dateOfChars s.toList) then some (dateOfChars s.toList)
    else none
  else none

/-- Strip whitespace from both ends (as `pd.to_numeric` does). -/
def trimSpaces (l : List Char) : List Char :=
  ((l.dropWhile (fun c => c == ' ')).reverse.dropWhile (fun c => c == ' ')).reverse

/-- Decimal value of a digit list, most significant first. -/
def natOfDigitList (l : List Char) : Nat :=
  l.foldl (fun a c => 10 * a + (c.toNat - 48)) 0

/-- Parse an unsigned decimal numeral with an optional fractional part
(`"12"`, `"12."`, `".5"`, `"1234.56"`); anything else is `none`.
Scientific notation accepted by `pd.to_numeric` is elided: no claim
involves it. -/
def parseUnsignedDec (l : List Char) : Option ℚ :=
  let ip := l.takeWhile (fun c => c.isDigit)
  let rest := l.dropWhile (fun c => c.isDigit)
  match rest with
  | [] => if ip.isEmpty then none else some (natOfDigitList ip : ℚ)
  | c :: frac =>
    if c == '.' then
      if frac.all (fun ch => ch.isDigit) && !(ip.isEmpty && frac.isEmpty) then
        some ((natOfDigitList ip : ℚ) +
          (natOfDigitList frac : ℚ) / ((10 : ℚ) ^ frac.length))
      else none
    else none

/-- Parse an optionally signed decimal numeral. -/
def parseSignedDec (l : List Char) : Option ℚ :=
  match l with
  | '-' :: rest => (parseUnsignedDec rest).map (fun q => -q)
  | '+' :: rest => parseUnsignedDec rest
  | _ => parseUnsignedDec l

/-- `Series.replace('[\$,]', '', regex=True)`: delete every `$` and `,`. -/
def stripCurrency (s : String) : String :=
  ⟨s.toList.filter (fun c => !(c == '$') && !(c == ','))⟩

/-- The monetary-column cleanup of `process_pdf`: strip `$`/`,`, then
`pd.to_numeric(errors='coerce')` — an unparseable cell becomes null. -/
def parseMoneyCell (c : Option String) : Option ℚ :=
  c.bind (fun s => parseSignedDec (trimSpaces (stripCurrency s).toList))

/-- One raw row after the canonical 7-column schema has been assigned
(cells in document order: transaction date, value date, details, money
out, money in, ledger balance, bank reference number). -/
structure RawRow where
  tdate : Option String
  vdate : Option String
  details : Option String
  money_out : Option String
  money_in : Option String
  ledger_balance : Option String
  bank_ref : Option String
deriving DecidableEq, Repr

/-- A raw page table as returned by `tabula.read_pdf` (with
`pandas_options={'header': None}`, so every row is data): a column
count and a grid of cells. -/
structure RawTable where
  ncols : Nat
  rows : List (List (Option String))
deriving DecidableEq, Repr

/-- View a 7-cell row through the canonical schema. -/
def toRawRow (cs : List (Option String)) : RawRow :=
  ⟨cs.getD 0 none, cs.getD 1 none, cs.getD 2 none, cs.getD 3 none,
    cs.getD 4 none, cs.getD 5 none, cs.getD 6 none⟩

/-- `dropna(how='all')` test: every cell of the row is null. -/
def rowAllNull (r : RawRow) : Bool :=
  r.tdate.isNone && r.vdate.isNone && r.details.isNone &&
    r.money_out.isNone && r.money_in.isNone && r.ledger_balance.isNone &&
    r.bank_ref.isNone

/-- The per-table row pipeline of `process_pdf` after schema
assignment: `dropna(how='all')`, then the transaction-date `contains`
filter. -/
def tableRows (t : RawTable) : List RawRow :=
  ((t.rows.map toRawRow).filter (fun r => !rowAllNull r)).filter
    (fun r => cellContainsDate r.tdate)

/-- `table.columns = [7 names]`: pandas raises a length-mismatch
`ValueError` unless the table has exactly 7 columns; on success the
per-table filters run. -/
def assignSchema (t : RawTable) : Except String (List RawRow) :=
  if t.ncols = 7 then .ok (tableRows t)
  else .error "Length mismatch: expected axis with 7 elements"

/-- Monadic map over `Except`, stopping at the first raised error (the
loop in `process_pdf` stops at the first pandas exception). -/
def exMapM (f : α → Except String β) : List α → Except String (List β)
  | [] => .ok []
  | a :: as =>
    match f a with
    | .error e => .error e
    | .ok b =>
      match exMapM f as with
      | .error e => .error e
      | .ok bs => .ok (b :: bs)

/-- The table loop of `process_pdf`: tables with fewer than 6 columns
are skipped, the rest get the schema assigned and are filtered. -/
def processTables (ts : List RawTable) : Except String (List (List RawRow)) :=
  exMapM assignSchema (ts.filter (fun t => decide (6 ≤ t.ncols)))

/-- `final_df[final_df['Transaction Date'] != 'Transaction Date']`:
drop leftover literal header rows after concatenation. -/
def dropHeaderRows (rs : List RawRow) : List RawRow :=
  rs.filter (fun r => !(r.tdate == some "Transaction Date"))

/-- The rows of every retained table, concatenated in document order
with no row filtering (for stating which rows the filters keep). -/
def allSchemaRows (ts : List RawTable) : List RawRow :=
  ((ts.filter (fun t => decide (6 ≤ t.ncols))).map
    (fun t => t.rows.map toRawRow)).flatten

/-- The concatenated, filtered rows of the ledger just before date
parsing: `pd.concat` of the per-table results, then header-row
removal. -/
def retainedRows (ts : List RawTable) : Except String (List RawRow) :=
  match processTables ts with
  | .error e => .error e
  | .ok pts => .ok (dropHeaderRows pts.flatten)

/-- `pd.to_datetime(..., format='%d.%m.%Y')` applied to one retained
row; an unparseable cell raises and aborts the whole run. A null cell
cannot occur here (the `contains` filter with `na=False` already
removed it), so that case is mapped to the same fatal error. -/
def parseRow (r : RawRow) : Except String (TDate × RawRow)  :=
  match r.tdate with
  | none => .error "time data does not match format"
  | some s =>
    match parseDateExact s with
    | none => .error "time data does not match format"
    | some d => .ok (d, r)

/-- One ledger row of the canonical transaction ledger. -/
structure LRow where
  tdate : TDate
  vdate : Option String
  details : Option String
  money_out : Option ℚ
  money_in : Option ℚ
  ledger_balance : Option ℚ
  bank_ref : Option String
deriving DecidableEq, Repr

/-- Monetary-column cleanup applied to one date-parsed row (row-wise
form of the three column assignments in `process_pdf`). -/
def cleanRow (p : TDate × RawRow) : LRow :=
  ⟨p.1, p.2.vdate, p.2.details, parseMoneyCell p.2.money_out,
    parseMoneyCell p.2.money_in, parseMoneyCell p.2.ledger_balance,
    p.2.bank_ref⟩

/-- Date ordering on parsed rows used by `sort_values('Transaction
Date')`. The modelled sort realizes the guaranteed ascending date
order; pandas' default `quicksort` fixes no particular permutation of
equal dates. -/
def rowLe (a b : TDate × RawRow) : Prop := a.1.key ≤ b.1.key

instance : DecidableRel rowLe := fun a b => Nat.decLe a.1.key b.1.key

/-- `process_pdf` minus the PDF extraction call: filter tables by
column count, assign the schema, drop empty and non-date rows,
concatenate, drop leftover header rows, parse and sort dates, clean
the monetary columns. Returns `.ok none` ("no valid tables found")
when no table passes the column filter, and `.error` when a pandas
operation raises. -/
def normalize (ts : List RawTable) : Except String (Option (List LRow)) :=
  match processTables ts with
  | .error e => .error e
  | .ok pts =>
    if pts.isEmpty then .ok none
    else
      match exMapM parseRow (dropHeaderRows pts.flatten) with
      | .error e => .error e
      | .ok prs => .ok (some ((List.insertionSort rowLe prs).map cleanRow))

/-- pandas column `sum()` with default `skipna=True`: nulls count as 0,
and an empty or all-null column sums to 0. -/
def qsum (xs : List (Option ℚ)) : ℚ := (xs.map (fun c => c.getD 0)).sum

/-- The ledger rows of one month group (`df.groupby('Month')` group
membership, in ledger order). -/
def monthGroup (l : List LRow) (k : String) : List LRow :=
  l.filter (fun r => decide (labelOf r.tdate = k))

/-- One monthly row before the growth and running-total columns are
added: the `groupby('Month').agg` sums, the `count` of non-null
`Transaction Details` cells, net movement (`Money In + Money Out`) and
average transaction value (`(Money In + |Money Out|) / count`). -/
structure BRow where
  month : String
  mi : ℚ
  mo : ℚ
  cnt : Nat
  net : ℚ
  avg : PVal
deriving DecidableEq, Repr

/-- Aggregate one month group, as `create_monthly_totals` does before
growth/running columns. -/
def aggMonth (l : List LRow) (k : String) : BRow :=
  let g := monthGroup l k
  let mi := qsum (g.map (fun r => r.money_in))
  let mo := qsum (g.map (fun r => r.money_out))
  let cnt := g.countP (fun r => r.details.isSome)
  { month := k, mi := mi, mo := mo, cnt := cnt, net := mi + mo,
    avg := pdiv (mi + |mo|) (cnt : ℚ) }

/-- Lexicographic comparison of character lists by Unicode code point,
as Python compares `str` values (used by pandas to sort group keys). -/
def charListLe : List Char → List Char → Bool
  | [], _ => true
  | _ :: _, [] => false
  | a :: as, b :: bs =>
    if a.toNat = b.toNat then charListLe as bs
    else decide (a.toNat < b.toNat)

/-- Python string order as a relation on labels. -/
def strLe (a b : String) : Prop := charListLe a.toList b.toList = true

instance : DecidableRel strLe := fun a b =>
  instDecidableEqBool (charListLe a.toList b.toList) true

/-- The distinct month labels in the order `groupby` emits them:
pandas' default `sort=True` sorts the label strings lexicographically
(not chronologically). -/
def monthKeys (l : List LRow) : List String :=
  List.insertionSort strLe ((l.map (fun r => labelOf r.tdate)).dedup)

/-- The monthly aggregation table before growth and running columns. -/
def monthlyBase (l : List LRow) : List BRow :=
  (monthKeys l).map (aggMonth l)

/-- Placeholder `BRow` for out-of-range indices (never read at the
indices `monthlyRows` uses). -/
def dfltBRow : BRow := ⟨"", 0, 0, 0, 0, .nan⟩

/-- One full row of the Monthly Analysis table: the aggregated columns
plus the three growth percentages and three running totals. -/
structure MRow where
  month : String
  money_in : ℚ
  money_out : ℚ
  tx_count : Nat
  net : ℚ
  avg : PVal
  growth_in : PVal
  growth_out : PVal
  growth_cnt : PVal
  run_in : ℚ
  run_out : ℚ
  run_net : ℚ
deriving DecidableEq, Repr

/-- Row `i` of the monthly table with all derived columns: the
row-aligned reading of the columnwise `pct_change() * 100` (relative to
row `i - 1`, NaN for row 0) and `cumsum` (prefix sums up to row `i`)
operations of `create_monthly_totals`. -/
def mrowAt (bs : List BRow) (i : Nat) : MRow :=
  let b := bs.getD i dfltBRow
  let ri := ((bs.take (i + 1)).map (fun x => x.mi)).sum
  let ro := ((bs.take (i + 1)).map (fun x => x.mo)).sum
  { month := b.month, money_in := b.mi, money_out := b.mo,
    tx_count := b.cnt, net := b.net, avg := b.avg,
    growth_in :=
      if i = 0 then .nan else pctStep (bs.getD (i - 1) dfltBRow).mi b.mi,
    growth_out :=
      if i = 0 then .nan else pctStep (bs.getD (i - 1) dfltBRow).mo b.mo,
    growth_cnt :=
      if i = 0 then .nan
      else pctStep ((bs.getD (i - 1) dfltBRow).cnt : ℚ) (b.cnt : ℚ),
    run_in := ri, run_out := ro, run_net := ri + ro }

/-- The monthly rows of `create_monthly_totals` excluding the trailing
Grand Total row. -/
def monthlyRows (l : List LRow) : List MRow :=
  (List.range (monthlyBase l).length).map (mrowAt (monthlyBase l))

/-- The synthetic `GRAND TOTAL` row: column sums over the monthly rows,
the `(sum in + sum |out|) / total count` average, `None` growth fields,
and running totals equal to the grand sums themselves. -/
def grandRow (l : List LRow) : MRow :=
  let ms := monthlyRows l
  { month := "GRAND TOTAL",
    money_in := (ms.map (fun m => m.money_in)).sum,
    money_out := (ms.map (fun m => m.money_out)).sum,
    tx_count := (ms.map (fun m => m.tx_count)).sum,
    net := (ms.map (fun m => m.net)).sum,
    avg := pdiv ((ms.map (fun m => m.money_in)).sum +
      (ms.map (fun m => |m.money_out|)).sum)
      (((ms.map (fun m => m.tx_count)).sum : ℚ)),
    growth_in := .nan, growth_out := .nan, growth_cnt := .nan,
    run_in := (ms.map (fun m => m.money_in)).sum,
    run_out := (ms.map (fun m => m.money_out)).sum,
    run_net := (ms.map (fun m => m.net)).sum }

/-- `create_monthly_totals` output: the monthly rows followed by the
Grand Total row (`pd.concat([monthly_totals, grand_totals])`). -/
def monthlyTotals (l : List LRow) : List MRow :=
  monthlyRows l ++ [grandRow l]

/-- One row of `create_daily_totals`: per-date sums, the `count` of
non-null `Transaction Details` cells, and net movement. -/
structure DRow where
  date : TDate
  mi : ℚ
  mo : ℚ
  cnt : Nat
  net : ℚ
deriving DecidableEq, Repr

/-- Date order used by `groupby('Transaction Date')` key sorting. -/
def dateLe (a b : TDate) : Prop := a.key ≤ b.key

instance : DecidableRel dateLe := fun a b => Nat.decLe a.key b.key

/-- The distinct transaction dates in the ascending order `groupby`
emits them. -/
def dayKeys (l : List LRow) : List TDate :=
  List.insertionSort dateLe ((l.map (fun r => r.tdate)).dedup)

/-- Aggregate one date group, as `create_daily_totals` does. -/
def aggDay (l : List LRow) (k : TDate) : DRow :=
  let g := l.filter (fun r => decide (r.tdate = k))
  let mi := qsum (g.map (fun r => r.money_in))
  let mo := qsum (g.map (fun r => r.money_out))
  { date := k, mi := mi, mo := mo,
    cnt := g.countP (fun r => r.details.isSome), net := mi + mo }

/-- `create_daily_totals` output (the `to_datetime` it applies to the
ledger's already-datetime column is the identity). -/
def dailyTotals (l : List LRow) : List DRow :=
  (dayKeys l).map (aggDay l)

/-- The ledger DataFrame as the aggregation steps see it: its rows plus
the `Month` column state (`none` until `create_monthly_totals` assigns
`df['Month']` in place). -/
structure DF where
  rows : List LRow
  monthCol : Option (List String)
deriving DecidableEq, Repr

/-- The non-null values of an optional-ℚ column. -/
def someVals (xs : List (Option ℚ)) : List ℚ := xs.filterMap id

/-- `Series.max()` with `skipna`: `none` models the NaN returned for an
all-null column. -/
def maxVal (xs : List ℚ) : Option ℚ :=
  xs.foldr (fun x acc => match acc with
    | none => some x
    | some y => some (max x y)) none

/-- `Series.min()` with `skipna`. -/
def minVal (xs : List ℚ) : Option ℚ :=
  xs.foldr (fun x acc => match acc with
    | none => some x
    | some y => some (min x y)) none

/-- The summary metrics of `create_summary` (dict order preserved). -/
structure Summary where
  total_in : ℚ
  total_out : ℚ
  net : ℚ
  n_tx : Nat
  n_in : Nat
  n_out : Nat
  avg_in : PVal
  avg_out : PVal
  max_in : Option ℚ
  min_out : Option ℚ
  first_date : TDate
  last_date : TDate
deriving DecidableEq, Repr

/-- `create_summary`: every metric before the first/last dates succeeds
on an empty ledger (sums are 0, means/extrema are NaN), but
`df['Transaction Date'].iloc[0]` raises `IndexError` when the ledger
has no rows. -/
def createSummary (df : DF) : Except String Summary :=
  match df.rows with
  | [] => .error "single positional indexer is out-of-bounds"
  | r0 :: rest =>
    let ins := df.rows.map (fun r => r.money_in)
    let outs := df.rows.map (fun r => r.money_out)
    .ok
      { total_in := qsum ins, total_out := qsum outs,
        net := qsum ins + qsum outs,
        n_tx := df.rows.length,
        n_in := ins.countP (fun c => c.isSome),
        n_out := outs.countP (fun c => c.isSome),
        avg_in := pdiv (qsum ins) ((someVals ins).length : ℚ),
        avg_out := pdiv (qsum outs) ((someVals outs).length : ℚ),
        max_in := maxVal (someVals ins),
        min_out := minVal (someVals outs),
        first_date := r0.tdate,
        last_date := ((r0 :: rest).getLast (List.cons_ne_nil r0 rest)).tdate }

/-- `create_daily_totals` as called in `upload_file`: the in-place
`to_datetime` on an already-datetime column leaves the ledger frame
unchanged. -/
def createDailyTotals (df : DF) : DF × List DRow :=
  (df, dailyTotals df.rows)

/-- `create_monthly_totals` as called in `upload_file`: the in-place
`df['Month'] = df['Transaction Date'].dt.strftime('%B %Y')` adds a
`Month` column to the ledger frame passed in. -/
def createMonthlyTotals (df : DF) : DF × List MRow :=
  ({ df with monthCol := some (df.rows.map (fun r => labelOf r.tdate)) },
    monthlyTotals df.rows)

/-- The aggregation sequence of `upload_file` (summary, then daily,
then monthly), returning the ledger frame as it stands afterwards. -/
def runAggregations (df : DF) :
    DF × Except String Summary × List DRow × List MRow :=
  let s := createSummary df
  let d := createDailyTotals df
  let m := createMonthlyTotals d.1
  (m.1, s, d.2, m.2)

/-- The date re-formatting `upload_file` applies to the ledger at
serialization time (`dt.strftime('%d.%m.%Y')`). -/
def serializedDates (df : DF) : List String :=
  df.rows.map (fun r => fmtDDMMYYYY r.tdate)

/-- Modelled from the spec: the month labels "in chronological order of
each month's first occurrence in the ledger" — first-occurrence
de-duplication of the per-row labels (the ledger is date-sorted, so
first-occurrence order is chronological order). -/
def specMonthlyLabelsChrono (l : List LRow) : List String :=
  (l.map (fun r => labelOf r.tdate)).dedup

instance {ε α : Type} [DecidableEq ε] [DecidableEq α] :
    DecidableEq (Except ε α) := fun a b =>
  match a, b with
  | .error x, .error y =>
    if h : x = y then isTrue (by rw [h])
    else isFalse (fun hh => by cases hh; exact h rfl)
  | .ok x, .ok y =>
    if h : x = y then isTrue (by rw [h])
    else isFalse (fun hh => by cases hh; exact h rfl)
  | .error x, .ok y => isFalse (fun hh => by cases hh)
  | .ok x, .error y => isFalse (fun hh => by cases hh)

/-! ### General lemmas about the embedded operations -/

/-- pandas' `pct_change` formula `cur / prev - 1` (times 100) agrees
with the spec's `(cur - prev) / prev * 100`, including the NaN/∞ cases
produced when the previous value is zero. -/
theorem pctStep_eq_pctSpec (p c : ℚ) : pctStep p c = pctSpec p c := by
  unfold pctStep pctSpec pdiv
  by_cases hp : p = 0
  · by_cases hc : c = 0
    · simp [hp, hc, PVal.sub1, PVal.mul100]
    · by_cases h0 : 0 < c <;>
        simp [hp, hc, h0, PVal.sub1, PVal.mul100]
  · simp only [if_neg hp, PVal.sub1, PVal.mul100, PVal.num.injEq]
    field_simp

theorem charListLe_of_false (as bs : List Char)
    (h : charListLe as bs = false) : charListLe bs as = true := by
  induction as generalizing bs with
  | nil => simp [charListLe] at h
  | cons a as ih =>
    cases bs with
    | nil => rfl
    | cons b bs =>
      by_cases heq : a.toNat = b.toNat
      · rw [charListLe, if_pos heq] at h
        rw [charListLe, if_pos heq.symm]
        exact ih bs h
      · rw [charListLe, if_neg heq, decide_eq_false_iff_not, Nat.not_lt] at h
        have hlt : b.toNat < a.toNat :=
          Nat.lt_of_le_of_ne h (fun e => heq e.symm)
        rw [charListLe, if_neg (fun e => heq e.symm)]
        simpa using hlt

theorem charListLe_trans_aux (as : List Char) : ∀ bs cs : List Char,
    charListLe as bs = true → charListLe bs cs = true →
    charListLe as cs = true := by
  induction as with
  | nil => intro bs cs _ _; rfl
  | cons a as ih =>
    intro bs cs h1 h2
    cases bs with
    | nil => simp [charListLe] at h1
    | cons b bs =>
      cases cs with
      | nil => simp [charListLe] at h2
      | cons c cs =>
        by_cases hab : a.toNat = b.toNat <;>
          by_cases hbc : b.toNat = c.toNat
        · rw [charListLe, if_pos hab] at h1
          rw [charListLe, if_pos hbc] at h2
          rw [charListLe, if_pos (hab.trans hbc)]
          exact ih bs cs h1 h2
        · rw [charListLe, if_neg hbc, decide_eq_true_eq] at h2
          have : a.toNat < c.toNat := hab ▸ h2
          rw [charListLe, if_neg (Nat.ne_of_lt this), decide_eq_true_eq]
          exact this
        · rw [charListLe, if_neg hab, decide_eq_true_eq] at h1
          have : a.toNat < c.toNat := hbc ▸ h1
          rw [charListLe, if_neg (Nat.ne_of_lt this), decide_eq_true_eq]
          exact this
        · rw [charListLe, if_neg hab, decide_eq_true_eq] at h1
          rw [charListLe, if_neg hbc, decide_eq_true_eq] at h2
          have : a.toNat < c.toNat := Nat.lt_trans h1 h2
          rw [charListLe, if_neg (Nat.ne_of_lt this), decide_eq_true_eq]
          exact this

instance : IsTotal String strLe :=
  ⟨fun a b => by
    unfold strLe
    rcases hb : charListLe a.toList b.toList with _ | _
    · exact Or.inr (charListLe_of_false _ _ hb)
    · exact Or.inl rfl⟩

instance : IsTrans String strLe :=
  ⟨fun a b c h1 h2 => charListLe_trans_aux a.toList b.toList c.toList h1 h2⟩

theorem getD_eq_getElem_of_lt {α : Type} (l : List α) (d : α) (i : Nat)
    (h : i < l.length) : l.getD i d = l[i] := by
  simp [List.getD_eq_getElem?_getD, List.getElem?_eq_getElem h]

/-- The monthly rows (Grand Total excluded) carry exactly the sorted
distinct month labels, in `groupby` emission order. -/
theorem monthlyRows_month_map (l : List LRow) :
    (monthlyRows l).map (fun m => m.month) = monthKeys l := by
  have hb : (monthlyBase l).length = (monthKeys l).length := by
    simp [monthlyBase]
  apply List.ext_getElem
  · simp [monthlyRows, hb]
  · intro i h1 h2
    have hib : i < (monthlyBase l).length := by
      simpa [monthlyRows, hb] using h1
    simp only [monthlyRows, List.getElem_map, List.getElem_range, mrowAt]
    rw [getD_eq_getElem_of_lt _ _ _ hib]
    simp [monthlyBase, aggMonth]

theorem exMapM_ok_forall {α β : Type} {f : α → Except String β} :
    ∀ {xs : List α} {ys : List β}, exMapM f xs = .ok ys →
      ∀ x ∈ xs, ∃ y, f x = .ok y := by
  intro xs
  induction xs with
  | nil => intro ys _ x hx; simp at hx
  | cons a as ih =>
    intro ys h x hx
    rw [exMapM] at h
    cases hfa : f a with
    | error e => rw [hfa] at h; cases h
    | ok b =>
      rw [hfa] at h
      cases hrec : exMapM f as with
      | error e => rw [hrec] at h; cases h
      | ok bs =>
        rcases List.mem_cons.mp hx with rfl | hmem
        · exact ⟨b, hfa⟩
        · exact ih hrec x hmem

theorem exMapM_ok_mem {α β : Type} {f : α → Except String β} :
    ∀ {xs : List α} {ys : List β}, exMapM f xs = .ok ys →
      ∀ y ∈ ys, ∃ x ∈ xs, f x = .ok y := by
  intro xs
  induction xs with
  | nil =>
    intro ys h y hy
    rw [exMapM] at h
    cases h
    simp at hy
  | cons a as ih =>
    intro ys h y hy
    rw [exMapM] at h
    cases hfa : f a with
    | error e => rw [hfa] at h; cases h
    | ok b =>
      rw [hfa] at h
      cases hrec : exMapM f as with
      | error e => rw [hrec] at h; cases h
      | ok bs =>
        rw [hrec] at h
        cases h
        rcases List.mem_cons.mp hy with rfl | hmem
        · exact ⟨a, List.mem_cons_self a as, hfa⟩
        · obtain ⟨x, hx, hfx⟩ := ih hrec y hmem
          exact ⟨x, List.mem_cons_of_mem a hx, hfx⟩

theorem parseDateExact_valid {s : String} {d : TDate}
    (h : parseDateExact s = some d) : validTDate d = true := by
  unfold parseDateExact at h
  split_ifs at h with h1 h2
  cases h; exact h2

theorem parseDateExact_shape {s : String} {d : TDate}
    (h : parseDateExact s = some d) : strictDateShape s = true := by
  unfold parseDateExact at h
  split_ifs at h with h1 h2
  exact h1

/-! ### Claim C1: order of the monthly rows -/

/-- A statement with one March 2024 row and one April 2024 row. -/
def c1tabs : List RawTable :=
  [⟨7, [[some "15.03.2024", some "15.03.2024", some "Salary", none,
         some "100.00", some "500.00", some "R1"],
        [some "10.04.2024", some "10.04.2024", some "Rent", some "-40.00",
         none, some "460.00", some "R2"]]⟩]

/-- The ledger `normalize` produces for `c1tabs`. -/
def c1ledger : List LRow :=
  [⟨⟨2024, 3, 15⟩, some "15.03.2024", some "Salary", none, some 100,
    some 500, some "R1"⟩,
   ⟨⟨2024, 4, 10⟩, some "10.04.2024", some "Rent", some (-40), none,
    some 460, some "R2"⟩]

unseal Rat.add Rat.mul Rat.inv Rat.sub Rat.ofScientific in
/-- C1 counterexample: on a two-month ledger (March then April 2024,
chronological first-occurrence order `March, April`), the monthly rows
come out as `April 2024, March 2024` — `groupby('Month')` sorts the
label strings alphabetically, not chronologically. -/
theorem c1_counterexample :
    normalize c1tabs = .ok (some c1ledger) ∧
    (monthlyTotals c1ledger).dropLast.map (fun m => m.month) =
      ["April 2024", "March 2024"] ∧
    specMonthlyLabelsChrono c1ledger = ["March 2024", "April 2024"] ∧
    (monthlyTotals c1ledger).dropLast.map (fun m => m.month) ≠
      specMonthlyLabelsChrono c1ledger :=
  ⟨by decide, by decide, by decide, by decide⟩

/-- C1 (corrected): for every ledger the rows of `monthly_totals`
excluding the trailing Grand Total row appear in lexicographic
(Python string) order of their month-name labels — the order
`groupby(sort=True)` emits — not chronological order. -/
theorem c1_amended (l : List LRow) :
    List.Sorted strLe ((monthlyTotals l).dropLast.map (fun m => m.month)) := by
  rw [monthlyTotals, List.dropLast_concat, monthlyRows_month_map]
  exact List.sorted_insertionSort strLe _

/-! ### Claim C2: the column-count filter versus schema assignment -/

/-- A raw page table with exactly 6 columns and one plausible data
row: it passes the `len(table.columns) >= 6` filter. -/
def c2table6 : RawTable :=
  ⟨6, [[some "01.01.2024", some "01.01.2024", some "Fee", some "-1.00",
        none, some "9.00"]]⟩

/-- C2 (code bug): a table with 6 columns passes the `>= 6` retention
filter, but assigning the 7-name canonical schema to it raises a
pandas length-mismatch `ValueError`, so processing fails instead of
retaining the table. -/
theorem c2_mismatch :
    c2table6.ncols = 6 ∧
    normalize [c2table6] =
      .error "Length mismatch: expected axis with 7 elements" :=
  ⟨rfl, by decide⟩

/-! ### Claim C3: mutation of the ledger by the aggregation steps -/

/-- A one-row March 2024 ledger frame before any aggregation ran. -/
def c3df : DF :=
  ⟨[⟨⟨2024, 3, 15⟩, some "15.03.2024", some "Salary", none, some 100,
     some 500, some "R1"⟩], none⟩

unseal Rat.add Rat.mul Rat.inv Rat.sub Rat.ofScientific in
/-- C3 counterexample: running the aggregation sequence changes the
ledger frame — `create_monthly_totals` assigns a new `Month` column to
the ledger DataFrame in place. -/
theorem c3_counterexample :
    (runAggregations c3df).1 ≠ c3df ∧
    c3df.monthCol = none ∧
    (runAggregations c3df).1.monthCol = some ["March 2024"] :=
  ⟨by decide, rfl, by decide⟩

/-- C3 (corrected): the aggregation steps leave the ledger's rows (all
original columns and values) unchanged, but `create_monthly_totals`
adds a derived `Month` column to the ledger frame in place; the
transaction-date column is additionally re-formatted to `DD.MM.YYYY`
strings at serialization time. -/
theorem c3_amended (df : DF) :
    (runAggregations df).1.rows = df.rows ∧
    (runAggregations df).1.monthCol =
      some (df.rows.map (fun r => labelOf r.tdate)) ∧
    serializedDates df = df.rows.map (fun r => fmtDDMMYYYY r.tdate) :=
  ⟨rfl, rfl, rfl⟩

/-! ### Claim C4: nullability of the money columns -/

/-- A statement whose only transaction row is a balance-only line:
valid date, details and balance, but empty money-out and money-in
cells. -/
def c4tabs : List RawTable :=
  [⟨7, [[some "01.01.2024", some "01.01.2024", some "Opening Balance",
         none, none, some "100.00", some "R0"]]⟩]

/-- The ledger row `normalize` retains for `c4tabs`. -/
def c4row : LRow :=
  ⟨⟨2024, 1, 1⟩, some "01.01.2024", some "Opening Balance", none, none,
    some 100, some "R0"⟩

unseal Rat.add Rat.mul Rat.inv Rat.sub Rat.ofScientific in
/-- C4 counterexample: `normalize` retains a record whose `money_in`
and `money_out` are both null — nothing in the pipeline enforces the
claimed invariant. -/
theorem c4_counterexample :
    normalize c4tabs = .ok (some [c4row]) ∧
    c4row.money_in = none ∧ c4row.money_out = none :=
  ⟨by decide, rfl, rfl⟩

/-- C4 (corrected): no non-nullness invariant holds for
`money_in`/`money_out` (both may be null for a retained record, e.g. a
balance-only row); what does hold of every retained record is the rest
of the claim's source sentence: its transaction date parsed as a
calendar-valid date. -/
theorem c4_amended (ts : List RawTable) (l : List LRow)
    (h : normalize ts = .ok (some l)) :
    l.all (fun r => validTDate r.tdate) = true := by
  rw [List.all_eq_true]
  intro r hr
  unfold normalize at h
  cases hp : processTables ts with
  | error e => rw [hp] at h; cases h
  | ok pts =>
    rw [hp] at h
    dsimp only at h
    by_cases hemp : pts.isEmpty
    · rw [if_pos hemp] at h
      injection h with h1
      exact Option.noConfusion h1
    · rw [if_neg hemp] at h
      cases hpar : exMapM parseRow (dropHeaderRows pts.flatten) with
      | error e => rw [hpar] at h; cases h
      | ok prs =>
        rw [hpar] at h
        dsimp only at h
        injection h with h1
        injection h1 with h2
        rw [← h2] at hr
        obtain ⟨p, hpmem, hpr⟩ := List.mem_map.mp hr
        have hp2 : p ∈ prs := (List.mem_insertionSort rowLe).mp hpmem
        obtain ⟨x, _, hfx⟩ := exMapM_ok_mem hpar p hp2
        unfold parseRow at hfx
        cases hxt : x.tdate with
        | none => rw [hxt] at hfx; cases hfx
        | some s =>
          rw [hxt] at hfx
          dsimp only at hfx
          cases hpd : parseDateExact s with
          | none => rw [hpd] at hfx; cases hfx
          | some dd =>
            rw [hpd] at hfx
            dsimp only at hfx
            injection hfx with hfx2
            have hv := parseDateExact_valid hpd
            rw [← hpr, ← hfx2]
            simpa [cleanRow] using hv

unseal Rat.add Rat.mul Rat.inv Rat.sub Rat.ofScientific in
/-- C4 witness: the amended theorem applied to the concrete statement
`c4tabs`, whose one retained record indeed carries a calendar-valid
parsed date. -/
theorem c4_amended_witness :
    normalize c4tabs = .ok (some [c4row]) ∧
    ([c4row] : List LRow).all (fun r => validTDate r.tdate) = true :=
  ⟨by decide, c4_amended c4tabs [c4row] (by decide)⟩

/-! ### Claim C5: daily totals row count and per-day counts -/

theorem countP_add_countP_not {α : Type} (p : α → Bool) (m : List α) :
    m.countP p + m.countP (fun x => !p x) = m.length := by
  induction m with
  | nil => simp
  | cons a t ih =>
    by_cases h : p a <;> simp [List.countP_cons, h] <;> omega

theorem sum_countP_key {α κ : Type} [DecidableEq κ] (key : α → κ) :
    ∀ (ks : List κ) (m : List α), ks.Nodup → (∀ x ∈ m, key x ∈ ks) →
      (ks.map (fun k => m.countP (fun x => decide (key x = k)))).sum =
        m.length := by
  intro ks
  induction ks with
  | nil =>
    intro m _ hcov
    cases m with
    | nil => simp
    | cons a t => exact absurd (hcov a (List.mem_cons_self a t)) (List.not_mem_nil _)
  | cons k ks ih =>
    intro m hnd hcov
    have hnd2 := List.nodup_cons.mp hnd
    rw [List.map_cons, List.sum_cons]
    have hmap : ∀ k2 ∈ ks, m.countP (fun x => decide (key x = k2)) =
        (m.filter (fun x => !decide (key x = k))).countP
          (fun x => decide (key x = k2)) := by
      intro k2 hk2
      have hne : k2 ≠ k := fun e => hnd2.1 (e ▸ hk2)
      rw [List.countP_filter]
      have hfun : (fun x => decide (key x = k2) && !decide (key x = k)) =
          (fun x => decide (key x = k2)) := by
        funext x
        by_cases hx : key x = k2
        · simp [hx, hne]
        · simp [hx]
      rw [hfun]
    have hcov2 : ∀ x ∈ m.filter (fun x => !decide (key x = k)), key x ∈ ks := by
      intro x hx
      obtain ⟨hxm, hxk⟩ := List.mem_filter.mp hx
      have := hcov x hxm
      rcases List.mem_cons.mp this with he | hmem
      · simp [he] at hxk
      · exact hmem
    have hih := ih (m.filter (fun x => !decide (key x = k))) hnd2.2 hcov2
    rw [List.map_congr_left hmap, hih]
    have hflen : (m.filter (fun x => !decide (key x = k))).length =
        m.countP (fun x => !decide (key x = k)) :=
      (List.countP_eq_length_filter _ _).symm
    rw [hflen]
    exact countP_add_countP_not (fun x => decide (key x = k)) m

/-- A statement whose one transaction row has a null
`Transaction Details` cell (an empty narrative); the row is retained
but not counted by the `count` aggregation. -/
def c5tabs : List RawTable :=
  [⟨7, [[some "01.01.2024", some "01.01.2024", none, none, some "5.00",
         some "100.00", some "R3"]]⟩]

/-- The ledger `normalize` produces for `c5tabs`. -/
def c5ledger : List LRow :=
  [⟨⟨2024, 1, 1⟩, some "01.01.2024", none, none, some 5, some 100,
    some "R3"⟩]

unseal Rat.add Rat.mul Rat.inv Rat.sub Rat.ofScientific in
/-- C5 counterexample: on a one-row ledger whose details cell is null,
the per-day transaction counts sum to 0, not to the ledger row count 1
— `agg({'Transaction Details': 'count'})` counts only non-null
cells. -/
theorem c5_counterexample :
    normalize c5tabs = .ok (some c5ledger) ∧
    ((dailyTotals c5ledger).map (fun d => d.cnt)).sum = 0 ∧
    c5ledger.length = 1 ∧
    ((dailyTotals c5ledger).map (fun d => d.cnt)).sum ≠ c5ledger.length :=
  ⟨by decide, by decide, rfl, by decide⟩

/-- C5 (corrected): for every ledger, `daily_totals` has one row per
distinct transaction date, and the per-day counts sum to the number of
ledger rows with a non-null `Transaction Details` cell (not to the
total row count: null-details rows are retained but uncounted). -/
theorem c5_amended (l : List LRow) :
    (dailyTotals l).length = ((l.map (fun r => r.tdate)).dedup).length ∧
    ((dailyTotals l).map (fun d => d.cnt)).sum =
      l.countP (fun r => r.details.isSome) := by
  constructor
  · rw [dailyTotals, List.length_map, dayKeys, List.length_insertionSort]
  · rw [dailyTotals, List.map_map]
    have hterm : ∀ k ∈ dayKeys l,
        ((fun d => d.cnt) ∘ aggDay l) k =
          (l.filter (fun r => r.details.isSome)).countP
            (fun r => decide (r.tdate = k)) := by
      intro k _
      show (l.filter (fun r => decide (r.tdate = k))).countP
        (fun r => r.details.isSome) = _
      rw [List.countP_filter, List.countP_filter]
      have hcomm : (fun r : LRow => r.details.isSome && decide (r.tdate = k)) =
          (fun r : LRow => decide (r.tdate = k) && r.details.isSome) := by
        funext r
        exact Bool.and_comm _ _
      rw [hcomm]
    rw [List.map_congr_left hterm]
    have hnodup : (dayKeys l).Nodup :=
      ((List.perm_insertionSort dateLe _).nodup_iff).mpr
        (List.nodup_dedup _)
    have hcov : ∀ x ∈ l.filter (fun r => r.details.isSome),
        x.tdate ∈ dayKeys l := by
      intro x hx
      have hxl : x ∈ l := (List.mem_filter.mp hx).1
      have : x.tdate ∈ (l.map (fun r => r.tdate)).dedup :=
        List.mem_dedup.mpr (List.mem_map.mpr ⟨x, hxl, rfl⟩)
      exact (List.mem_insertionSort dateLe).mpr this
    rw [sum_countP_key (fun r : LRow => r.tdate) (dayKeys l) _ hnodup hcov]
    exact (List.countP_eq_length_filter _ _).symm

/-! ### Claim C6: the growth-percentage columns -/

theorem monthlyRows_getElem? (l : List LRow) (i : Nat) :
    (monthlyRows l)[i]? =
      if i < (monthlyBase l).length then some (mrowAt (monthlyBase l) i)
      else none := by
  rw [monthlyRows, List.getElem?_map]
  by_cases h : i < (monthlyBase l).length
  · rw [List.getElem?_range h, if_pos h]
    rfl
  · rw [if_neg h]
    have hnone : (List.range (monthlyBase l).length)[i]? = none := by
      rw [List.getElem?_eq_none]
      simpa using Nat.le_of_not_lt h
    rw [hnone]
    rfl

/-- C6 (corrected): in `monthly_totals` the first monthly row's three
growth percentages are null, and each later row's growth equals
`(current - previous) / previous * 100` against the immediately
preceding row — but when the previous value is zero the result is null
only if the current value is also zero; a nonzero current over a zero
previous yields a signed infinity, not null. -/
theorem c6_amended (l : List LRow) (i : Nat) (m0 pr cur : MRow)
    (h0 : (monthlyRows l)[0]? = some m0)
    (h1 : (monthlyRows l)[i]? = some pr)
    (h2 : (monthlyRows l)[i + 1]? = some cur) :
    m0.growth_in = .nan ∧ m0.growth_out = .nan ∧ m0.growth_cnt = .nan ∧
    cur.growth_in = pctSpec pr.money_in cur.money_in ∧
    cur.growth_out = pctSpec pr.money_out cur.money_out ∧
    cur.growth_cnt = pctSpec (pr.tx_count : ℚ) (cur.tx_count : ℚ) := by
  rw [monthlyRows_getElem?] at h0 h1 h2
  split_ifs at h0 h1 h2 with hb0 hb1 hb2
  injection h0 with h0
  injection h1 with h1
  injection h2 with h2
  subst h0 h1 h2
  refine ⟨?_, ?_, ?_, ?_, ?_, ?_⟩
  · simp [mrowAt]
  · simp [mrowAt]
  · simp [mrowAt]
  · simp only [mrowAt]
    rw [if_neg (Nat.succ_ne_zero i)]
    rw [Nat.add_sub_cancel]
    exact pctStep_eq_pctSpec _ _
  · simp only [mrowAt]
    rw [if_neg (Nat.succ_ne_zero i)]
    rw [Nat.add_sub_cancel]
    exact pctStep_eq_pctSpec _ _
  · simp only [mrowAt]
    rw [if_neg (Nat.succ_ne_zero i)]
    rw [Nat.add_sub_cancel]
    exact pctStep_eq_pctSpec _ _

/-- A two-month ledger whose alphabetically first month group
(April 2024) has a zero money-in sum while the next monthly row
(March 2024) has a positive one. -/
def c6ledger : List LRow :=
  [⟨⟨2024, 3, 15⟩, some "15.03.2024", some "Pay", none, some 100,
    some 600, some "R4"⟩,
   ⟨⟨2024, 4, 10⟩, some "10.04.2024", some "Shop", some (-50), none,
    some 550, some "R5"⟩]

/-- The first monthly row `create_monthly_totals` derives from
`c6ledger`. -/
def c6w0 : MRow :=
  ⟨"April 2024", 0, -50, 1, -50, .num 50, .nan, .nan, .nan, 0, -50, -50⟩

/-- The second monthly row `create_monthly_totals` derives from
`c6ledger`. -/
def c6w1 : MRow :=
  ⟨"March 2024", 100, 0, 1, 100, .num 100, .pinf, .num (-100), .num 0,
    100, -50, 50⟩

unseal Rat.add Rat.mul Rat.inv Rat.sub Rat.ofScientific in
/-- C6 counterexample: a monthly row whose predecessor has money-in
sum 0 and whose own money-in sum is 100 gets growth `+∞` from
`pct_change`, not the null the claim requires for a zero previous
value. -/
theorem c6_counterexample :
    (monthlyRows c6ledger).map (fun m => m.money_in) = [0, 100] ∧
    (monthlyRows c6ledger).map (fun m => m.growth_in) = [.nan, .pinf] ∧
    PVal.pinf ≠ PVal.nan :=
  ⟨by decide, by decide, by decide⟩

unseal Rat.add Rat.mul Rat.inv Rat.sub Rat.ofScientific in
/-- C6 witness: the amended growth formula instantiated on the two
monthly rows of `c6ledger`. -/
theorem c6_amended_witness :
    (monthlyRows c6ledger)[0]? = some c6w0 ∧
    (monthlyRows c6ledger)[1]? = some c6w1 ∧
    (c6w0.growth_in = .nan ∧ c6w0.growth_out = .nan ∧
     c6w0.growth_cnt = .nan ∧
     c6w1.growth_in = pctSpec c6w0.money_in c6w1.money_in ∧
     c6w1.growth_out = pctSpec c6w0.money_out c6w1.money_out ∧
     c6w1.growth_cnt = pctSpec (c6w0.tx_count : ℚ) (c6w1.tx_count : ℚ)) :=
  ⟨by decide, by decide,
    c6_amended c6ledger 0 c6w0 c6w0 c6w1 (by decide) (by decide) (by decide)⟩

/-! ### Claim C7: the Grand Total row -/

theorem monthlyRows_length (l : List LRow) :
    (monthlyRows l).length = (monthlyBase l).length := by
  simp [monthlyRows]

theorem monthlyRows_getElem (l : List LRow) (i : Nat)
    (h : i < (monthlyRows l).length) :
    (monthlyRows l)[i] = mrowAt (monthlyBase l) i := by
  have hb : i < (monthlyBase l).length := by
    rw [← monthlyRows_length]; exact h
  have h1 := monthlyRows_getElem? l i
  rw [if_pos hb, List.getElem?_eq_getElem h] at h1
  exact Option.some.inj h1

theorem monthlyRows_map_proj {γ : Type} (l : List LRow) (f : MRow → γ)
    (g : BRow → γ)
    (hfg : ∀ bs i, f (mrowAt bs i) = g (bs.getD i dfltBRow)) :
    (monthlyRows l).map f = (monthlyBase l).map g := by
  apply List.ext_getElem
  · simp [monthlyRows_length]
  · intro i h1 h2
    rw [List.getElem_map, List.getElem_map]
    rw [monthlyRows_getElem l i (by simpa using h1)]
    rw [hfg]
    rw [getD_eq_getElem_of_lt _ _ _ (by simpa using h2)]

theorem sum_map_add_q {α : Type} (f g : α → ℚ) (xs : List α) :
    (xs.map (fun x => f x + g x)).sum = (xs.map f).sum + (xs.map g).sum := by
  induction xs with
  | nil => simp
  | cons a t ih =>
    simp only [List.map_cons, List.sum_cons, ih]
    ring

theorem monthlyBase_net_sum (l : List LRow) :
    ((monthlyBase l).map (fun b => b.net)).sum =
      ((monthlyBase l).map (fun b => b.mi)).sum +
        ((monthlyBase l).map (fun b => b.mo)).sum := by
  rw [monthlyBase, List.map_map, List.map_map, List.map_map]
  have hsplit : ((fun b : BRow => b.net) ∘ aggMonth l) =
      (fun k => ((fun b : BRow => b.mi) ∘ aggMonth l) k +
        ((fun b : BRow => b.mo) ∘ aggMonth l) k) := by
    funext k
    rfl
  rw [hsplit]
  exact sum_map_add_q _ _ _

theorem monthlyRows_ne_nil (l : List LRow) (h : l ≠ []) :
    monthlyRows l ≠ [] := by
  obtain ⟨r, hr⟩ := List.exists_mem_of_ne_nil l h
  have hlab : labelOf r.tdate ∈ (l.map (fun x => labelOf x.tdate)).dedup :=
    List.mem_dedup.mpr (List.mem_map.mpr ⟨r, hr, rfl⟩)
  have hkeys : labelOf r.tdate ∈ monthKeys l :=
    (List.mem_insertionSort strLe).mpr hlab
  have hkpos : 0 < (monthKeys l).length :=
    List.length_pos.mpr (List.ne_nil_of_mem hkeys)
  have hpos : 0 < (monthlyRows l).length := by
    rw [monthlyRows_length]
    simpa [monthlyBase] using hkpos
  exact List.length_pos.mp hpos

/-- C7 (confirmed): for every non-empty ledger, the trailing
`GRAND TOTAL` row of `monthly_totals` has null growth columns, its
money-in / money-out / transaction-count / net-movement fields are the
column sums over all non-Grand-Total monthly rows, and its three
running-total fields equal those same grand sums, which are also the
final cumulative sums reached in the last monthly row. -/
theorem c7_grand_totals (l : List LRow) (h : l ≠ []) :
    monthlyTotals l = monthlyRows l ++ [grandRow l] ∧
    (grandRow l).growth_in = .nan ∧
    (grandRow l).growth_out = .nan ∧
    (grandRow l).growth_cnt = .nan ∧
    (grandRow l).money_in = ((monthlyRows l).map (fun m => m.money_in)).sum ∧
    (grandRow l).money_out =
      ((monthlyRows l).map (fun m => m.money_out)).sum ∧
    (grandRow l).tx_count = ((monthlyRows l).map (fun m => m.tx_count)).sum ∧
    (grandRow l).net = ((monthlyRows l).map (fun m => m.net)).sum ∧
    (grandRow l).run_in = (grandRow l).money_in ∧
    (grandRow l).run_out = (grandRow l).money_out ∧
    (grandRow l).run_net = (grandRow l).net ∧
    ((monthlyRows l).getLast (monthlyRows_ne_nil l h)).run_in =
      (grandRow l).run_in ∧
    ((monthlyRows l).getLast (monthlyRows_ne_nil l h)).run_out =
      (grandRow l).run_out ∧
    ((monthlyRows l).getLast (monthlyRows_ne_nil l h)).run_net =
      (grandRow l).run_net := by
  have hne := monthlyRows_ne_nil l h
  have hlen := monthlyRows_length l
  have hbpos : 0 < (monthlyBase l).length := by
    rw [← hlen]
    exact List.length_pos.mpr hne
  have hlast : (monthlyRows l).getLast hne =
      mrowAt (monthlyBase l) ((monthlyBase l).length - 1) := by
    rw [List.getLast_eq_getElem, monthlyRows_getElem, hlen]
  have htake : (monthlyBase l).length - 1 + 1 = (monthlyBase l).length :=
    Nat.succ_pred_eq_of_pos hbpos
  have hmi : (monthlyRows l).map (fun m => m.money_in) =
      (monthlyBase l).map (fun b => b.mi) :=
    monthlyRows_map_proj l _ _ (fun bs i => rfl)
  have hmo : (monthlyRows l).map (fun m => m.money_out) =
      (monthlyBase l).map (fun b => b.mo) :=
    monthlyRows_map_proj l _ _ (fun bs i => rfl)
  have hnet : (monthlyRows l).map (fun m => m.net) =
      (monthlyBase l).map (fun b => b.net) :=
    monthlyRows_map_proj l _ _ (fun bs i => rfl)
  have hlast_run_in : ((monthlyRows l).getLast hne).run_in =
      ((monthlyBase l).map (fun b => b.mi)).sum := by
    rw [hlast]
    show ((((monthlyBase l).take ((monthlyBase l).length - 1 + 1)).map
      (fun b => b.mi)).sum) = _
    rw [htake, List.take_length]
  have hlast_run_out : ((monthlyRows l).getLast hne).run_out =
      ((monthlyBase l).map (fun b => b.mo)).sum := by
    rw [hlast]
    show ((((monthlyBase l).take ((monthlyBase l).length - 1 + 1)).map
      (fun b => b.mo)).sum) = _
    rw [htake, List.take_length]
  refine ⟨rfl, rfl, rfl, rfl, rfl, rfl, rfl, rfl, rfl, rfl, ?_, ?_, ?_, ?_⟩
  · show ((monthlyRows l).map (fun m => m.net)).sum =
      ((monthlyRows l).map (fun m => m.net)).sum
    rfl
  · show ((monthlyRows l).getLast hne).run_in = _
    rw [hlast_run_in]
    show _ = ((monthlyRows l).map (fun m => m.money_in)).sum
    rw [hmi]
  · show ((monthlyRows l).getLast hne).run_out = _
    rw [hlast_run_out]
    show _ = ((monthlyRows l).map (fun m => m.money_out)).sum
    rw [hmo]
  · show ((monthlyRows l).getLast hne).run_net = _
    have hrn : ((monthlyRows l).getLast hne).run_net =
        ((monthlyRows l).getLast hne).run_in +
          ((monthlyRows l).getLast hne).run_out := by
      rw [hlast]
      rfl
    rw [hrn, hlast_run_in, hlast_run_out]
    show _ = ((monthlyRows l).map (fun m => m.net)).sum
    rw [hnet, monthlyBase_net_sum]

/-- A one-row ledger used to instantiate the Grand Total theorem. -/
def c7ledger : List LRow :=
  [⟨⟨2024, 5, 2⟩, some "02.05.2024", some "Lunch", some (-10), some 30,
    some 20, some "R6"⟩]

/-- A proof the one-row ledger is non-empty, fixed so the witness can
spell the `getLast` terms. -/
def c7ne : c7ledger ≠ [] := by decide

unseal Rat.add Rat.mul Rat.inv Rat.sub Rat.ofScientific in
/-- C7 witness: the Grand Total properties evaluated on the concrete
one-month ledger `c7ledger`. -/
theorem c7_grand_totals_witness :
    c7ledger ≠ [] ∧
    ((grandRow c7ledger).money_in =
        ((monthlyRows c7ledger).map (fun m => m.money_in)).sum ∧
      ((monthlyRows c7ledger).getLast
        (monthlyRows_ne_nil c7ledger c7ne)).run_net =
        (grandRow c7ledger).run_net) :=
  ⟨c7ne, (c7_grand_totals c7ledger c7ne).2.2.2.2.1,
    (c7_grand_totals c7ledger c7ne).2.2.2.2.2.2.2.2.2.2.2.2.2⟩

/-! ### Claim C8: which rows the date filter retains -/

/-- The combined row-retention test `process_pdf` actually applies
before date parsing: not a leftover header row, transaction-date cell
contains the date pattern, and the row is not fully empty. -/
def retainPred (r : RawRow) : Bool :=
  !(r.tdate == some "Transaction Date") &&
    (cellContainsDate r.tdate && !rowAllNull r)

theorem exMapM_assign_ok : ∀ {xs : List RawTable} {pts : List (List RawRow)},
    exMapM assignSchema xs = .ok pts → pts = xs.map tableRows := by
  intro xs
  induction xs with
  | nil =>
    intro pts h
    rw [exMapM] at h
    cases h
    rfl
  | cons t ts ih =>
    intro pts h
    rw [exMapM] at h
    cases hat : assignSchema t with
    | error e => rw [hat] at h; cases h
    | ok rs =>
      rw [hat] at h
      cases hrec : exMapM assignSchema ts with
      | error e => rw [hrec] at h; cases h
      | ok pts2 =>
        rw [hrec] at h
        cases h
        have hrs : rs = tableRows t := by
          unfold assignSchema at hat
          split_ifs at hat
          exact (Except.ok.inj hat).symm
        rw [hrs, ih hrec, List.map_cons]

theorem flatten_map_filter {α β : Type} (g : α → List β) (p : β → Bool)
    (xs : List α) :
    (xs.map (fun x => (g x).filter p)).flatten =
      ((xs.map g).flatten).filter p := by
  induction xs with
  | nil => rfl
  | cons a t ih => simp [List.filter_append, ih]

theorem retained_filter_shape (ts : List RawTable)
    {pts : List (List RawRow)} (hp : processTables ts = .ok pts) :
    dropHeaderRows pts.flatten = (allSchemaRows ts).filter retainPred := by
  have hpts : pts = (ts.filter (fun t => decide (6 ≤ t.ncols))).map tableRows :=
    exMapM_assign_ok hp
  rw [hpts]
  unfold dropHeaderRows allSchemaRows tableRows
  simp only [flatten_map_filter, List.filter_filter]
  apply List.filter_congr
  intro r _
  unfold retainPred
  cases hA : rowAllNull r <;> cases hB : cellContainsDate r.tdate <;>
    cases hC : r.tdate == some "Transaction Date" <;> simp [hA, hB, hC]

theorem contains_of_strictShape {s : String}
    (h : strictDateShape s = true) : containsDatePat s.toList = true := by
  rw [strictDateShape, Bool.and_eq_true] at h
  obtain ⟨hm, _⟩ := h
  cases hls : s.toList with
  | nil => rw [hls] at hm; exact absurd hm (by decide)
  | cons c tl =>
    rw [hls] at hm
    rw [containsDatePat, hm]
    rfl

theorem strictShape_ne_header {s : String}
    (h : strictDateShape s = true) : s ≠ "Transaction Date" := by
  intro he
  rw [he] at h
  exact absurd h (by decide)

theorem rowAllNull_false_of_some {r : RawRow} {s : String}
    (h : r.tdate = some s) : rowAllNull r = false := by
  rw [rowAllNull, h]
  rfl

/-- C8 (confirmed): whenever `normalize` returns a ledger (the run
raises no error), the rows surviving its filters — the rows from which
the ledger is built — are exactly the rows of the retained tables
whose transaction-date cell strictly matches `DD.MM.YYYY`; header
rows, titles and subtotal lines are all excluded. -/
theorem c8_strict_filter (ts : List RawTable) (l : List LRow)
    (h : normalize ts = .ok (some l)) :
    retainedRows ts =
      .ok ((allSchemaRows ts).filter (fun r => strictDateMatch r.tdate)) := by
  unfold normalize at h
  cases hp : processTables ts with
  | error e => rw [hp] at h; cases h
  | ok pts =>
    rw [hp] at h
    dsimp only at h
    by_cases hemp : pts.isEmpty
    · rw [if_pos hemp] at h
      injection h with h1
      exact Option.noConfusion h1
    · rw [if_neg hemp] at h
      cases hpar : exMapM parseRow (dropHeaderRows pts.flatten) with
      | error e => rw [hpar] at h; cases h
      | ok prs =>
        have hparse : ∀ r ∈ dropHeaderRows pts.flatten,
            ∃ p, parseRow r = .ok p := exMapM_ok_forall hpar
        have hshape := retained_filter_shape ts hp
        unfold retainedRows
        rw [hp]
        dsimp only
        refine congrArg Except.ok ?_
        rw [hshape]
        apply List.filter_congr
        intro r hr
        cases hsm : strictDateMatch r.tdate with
        | true =>
          cases hts : r.tdate with
          | none =>
            unfold strictDateMatch at hsm
            rw [hts] at hsm
            cases hsm
          | some s =>
            unfold strictDateMatch at hsm
            rw [hts] at hsm
            dsimp only at hsm
            have hc := contains_of_strictShape hsm
            have hnn := rowAllNull_false_of_some hts
            have hnh : (r.tdate == some "Transaction Date") = false := by
              rw [hts]
              simpa using strictShape_ne_header hsm
            rw [retainPred, hnh, hnn]
            unfold cellContainsDate
            rw [hts]
            dsimp only
            rw [hc]
            rfl
        | false =>
          cases hcp : retainPred r with
          | false => rfl
          | true =>
            have hmem : r ∈ dropHeaderRows pts.flatten := by
              rw [hshape]
              exact List.mem_filter.mpr ⟨hr, hcp⟩
            obtain ⟨p, hpr⟩ := hparse r hmem
            unfold parseRow at hpr
            cases hts : r.tdate with
            | none => rw [hts] at hpr; cases hpr
            | some s =>
              rw [hts] at hpr
              dsimp only at hpr
              cases hpd : parseDateExact s with
              | none => rw [hpd] at hpr; cases hpr
              | some d =>
                have hsh := parseDateExact_shape hpd
                unfold strictDateMatch at hsm
                rw [hts] at hsm
                dsimp only at hsm
                rw [hsh] at hsm
                cases hsm

/-- A statement mixing a valid transaction row with a repeated header
row, a fully empty row, a page-footer line and a malformed 4-column
table. -/
def c8tabs : List RawTable :=
  [⟨7, [[some "Transaction Date", some "Value Date",
         some "Transaction Details", some "Money Out", some "Money In",
         some "Ledger Balance", some "Bank Reference Number"],
        [some "20.02.2024", some "20.02.2024", some "Coffee",
         some "-3.50", none, some "96.50", some "R9"],
        [none, none, none, none, none, none, none],
        [some "Page 1 of 2", none, none, none, none, none, none]]⟩,
   ⟨4, [[some "Totals", some "x", some "y", some "z"]]⟩]

/-- The ledger `normalize` produces for `c8tabs`. -/
def c8ledger : List LRow :=
  [⟨⟨2024, 2, 20⟩, some "20.02.2024", some "Coffee", some (-3.5), none,
    some 96.5, some "R9"⟩]

unseal Rat.add Rat.mul Rat.inv Rat.sub Rat.ofScientific in
/-- C8 witness: the strict-filter characterization instantiated on
`c8tabs`, whose run succeeds and keeps exactly the one strictly dated
row. -/
theorem c8_strict_filter_witness :
    normalize c8tabs = .ok (some c8ledger) ∧
    retainedRows c8tabs =
      .ok ((allSchemaRows c8tabs).filter (fun r => strictDateMatch r.tdate)) :=
  ⟨by decide, c8_strict_filter c8tabs c8ledger (by decide)⟩

/-! ### Claim C10: empty-but-present ledger and summarize's precondition -/

/-- C10 (confirmed): when at least one table survives the column-count
filter (`processed_tables` is a non-empty list) but no row survives
the empty-row/date filters, `normalize` returns a present zero-row
ledger, not the absent result; and `create_summary` on any zero-row
ledger frame fails with the `iloc[0]` IndexError, so it requires a
non-empty ledger. -/
theorem c10_empty_ledger (ts : List RawTable) (pts : List (List RawRow))
    (df : DF) (h1 : processTables ts = .ok pts) (h2 : pts.isEmpty = false)
    (h3 : dropHeaderRows pts.flatten = []) (h4 : df.rows = []) :
    normalize ts = .ok (some []) ∧
    createSummary df =
      .error "single positional indexer is out-of-bounds" := by
  constructor
  · unfold normalize
    rw [h1]
    dsimp only
    rw [if_neg (by rw [h2]; exact Bool.false_ne_true), h3]
    rfl
  · cases df with
    | mk rows mc =>
      dsimp only at h4
      subst h4
      rfl

/-- A statement whose only retained table contains nothing but the
repeated header row: it survives the column filter, but zero rows
survive the row filters. -/
def c10tabs : List RawTable :=
  [⟨7, [[some "Transaction Date", some "Value Date",
         some "Transaction Details", some "Money Out", some "Money In",
         some "Ledger Balance", some "Bank Reference Number"]]⟩]

/-- The empty ledger frame. -/
def dfEmpty : DF := ⟨[], none⟩

/-- C10 witness: the empty-ledger behaviour evaluated on `c10tabs` and
on the empty ledger frame. -/
theorem c10_empty_ledger_witness :
    processTables c10tabs = .ok [[]] ∧
    ([([] : List RawRow)] : List (List RawRow)).isEmpty = false ∧
    dropHeaderRows ([([] : List RawRow)] :
      List (List RawRow)).flatten = [] ∧
    dfEmpty.rows = [] ∧
    (normalize c10tabs = .ok (some []) ∧
     createSummary dfEmpty =
       .error "single positional indexer is out-of-bounds") :=
  ⟨by decide, rfl, rfl, rfl,
    c10_empty_ledger c10tabs [[]] dfEmpty (by decide) rfl rfl rfl⟩

end KcbEtl